import Mathlib

/-!
Shallow embedding of the arduino-timer library (kpfleming fork), primary
implementation `src/arduino-timer-cpp17.hpp`.

Modelling choices:
* `Timepoint` (C++ `unsigned long`, a `2^w`-bit wrapping counter) is `Nat`
  together with an explicit modulus `M` (`= 2^w`); every arithmetic
  operation that the C++ performs on `unsigned long` is performed `% M`,
  and wrapping subtraction is `tsub`.
* The pool `std::array<Timer, max_timers>` is a `List Timer` whose length
  is the capacity; iteration order is list order, matching slot-index
  order in the C++.
* A `TimerHandle` (`std::optional<std::reference_wrapper<Timer>>`) is an
  `Option Nat`: `none` is the empty handle, `some i` refers to slot `i`.
* A `Handler` (`std::function<HandlerResult(void)>`) is `Unit → HandlerResult`;
  a default-constructed (empty) `std::function` is `none` in
  `Option Handler`.
* The clock (`clock::now()`) is an external collaborator: a stream
  `clock : Nat → Timepoint` of successive readings; `tick` threads the
  index of the next reading, taking one reading per armed slot during the
  dispatch loop and one final reading afterwards, exactly as the C++ calls
  `clock::now()`.
-/

namespace ArduinoTimer

abbrev Timepoint := Nat

/-- Wrapping (unsigned, modulo `M`) subtraction `a - b` on `Timepoint`. -/
def tsub (M a b : Nat) : Nat := (a % M + (M - b % M)) % M

/-- `enum class TimerStatus { completed, repeat, reschedule }`. -/
inductive TimerStatus
  | completed
  | rep
  | reschedule
deriving DecidableEq

/-- `struct HandlerResult { TimerStatus status; Timepoint next; }`. -/
structure HandlerResult where
  status : TimerStatus
  next : Timepoint

/-- `using Handler = std::function<HandlerResult (void)>` (a live handler). -/
def Handler : Type := Unit → HandlerResult

/-- `struct Timer { Handler handler; Timepoint start, expires, repeat; }`;
the slot is free iff `handler = none`. -/
structure Timer where
  handler : Option Handler
  start : Timepoint
  expires : Timepoint
  rep : Timepoint

/-- The field values written by `TimerSet::remove`: empty handler, all
timing fields zero. -/
def freeTimer : Timer := ⟨none, 0, 0, 0⟩

/-- `TimerSet::remove(TimerHandle)`: no-op on an empty handle, otherwise
clears the handler and zeroes the timing fields of the referenced slot. -/
def remove (ts : List Timer) : Option Nat → List Timer
  | none => ts
  | some i => ts.set i freeTimer

/-- `TimerSet::next_timer_slot()`: index of the first slot with no handler. -/
def next_timer_slot (ts : List Timer) : Option Nat :=
  ts.findIdx? (fun t => t.handler.isNone)

/-- `TimerSet::add_timer(start, expires, handler, repeat)`: populate the
first free slot and return a handle to it; empty handle if the pool is
full. -/
def add_timer (M : Nat) (ts : List Timer) (start expires : Timepoint)
    (h : Handler) (rep : Timepoint) : List Timer × Option Nat :=
  match next_timer_slot ts with
  | some i => (ts.set i ⟨some h, start % M, expires % M, rep % M⟩, some i)
  | none => (ts, none)

/-- `TimerSet::reschedule_timer(handle, start, expires)`: no-op on an empty
handle or a freed slot; otherwise overwrite only `start` and `expires`. -/
def reschedule_timer (M : Nat) (ts : List Timer) (handle : Option Nat)
    (start expires : Timepoint) : List Timer × Option Nat :=
  match handle with
  | none => (ts, none)
  | some i =>
    match ts[i]? with
    | none => (ts, some i)
    | some t =>
      if t.handler.isNone then (ts, some i)
      else (ts.set i ⟨t.handler, start % M, expires % M, t.rep⟩, some i)

/-- `TimerSet::in(delay, h)`: `add_timer(clock::now(), delay, h)`; the
current clock reading is passed as `now`. -/
def in_ (M : Nat) (ts : List Timer) (now delay : Timepoint) (h : Handler) :
    List Timer × Option Nat :=
  add_timer M ts now delay h 0

/-- `TimerSet::at(when, h)`: `add_timer(now, when - now, h)` with wrapping
subtraction. -/
def at_ (M : Nat) (ts : List Timer) (now when : Timepoint) (h : Handler) :
    List Timer × Option Nat :=
  add_timer M ts now (tsub M when now) h 0

/-- `TimerSet::every(interval, h)`: `add_timer(now, interval, h, interval)`. -/
def every (M : Nat) (ts : List Timer) (now interval : Timepoint) (h : Handler) :
    List Timer × Option Nat :=
  add_timer M ts now interval h interval

/-- `TimerSet::now_and_every(interval, h)`: the source passes the clock
reading itself as the duration: `add_timer(now, now, h, interval)`. -/
def now_and_every (M : Nat) (ts : List Timer) (now interval : Timepoint)
    (h : Handler) : List Timer × Option Nat :=
  add_timer M ts now now h interval

/-- `TimerSet::cancel(handle)`: no-op on an empty handle or a freed slot,
otherwise `remove` the slot; always returns the handle unchanged. -/
def cancel (ts : List Timer) (handle : Option Nat) : List Timer × Option Nat :=
  match handle with
  | none => (ts, none)
  | some i =>
    match ts[i]? with
    | none => (ts, some i)
    | some t =>
      if t.handler.isNone then (ts, some i)
      else (remove ts (some i), some i)

/-- `TimerSet::reschedule_in(handle, delay)`:
`reschedule_timer(handle, clock::now(), delay)`. -/
def reschedule_in (M : Nat) (ts : List Timer) (handle : Option Nat)
    (now delay : Timepoint) : List Timer × Option Nat :=
  reschedule_timer M ts handle now delay

/-- `TimerSet::reschedule_at(handle, when)`:
`reschedule_timer(handle, now, when - now)` with wrapping subtraction. -/
def reschedule_at (M : Nat) (ts : List Timer) (handle : Option Nat)
    (now when : Timepoint) : List Timer × Option Nat :=
  reschedule_timer M ts handle now (tsub M when now)

/-- The `switch (status)` body of `TimerSet::tick` applied to a fired
slot `t` whose handler returned `r`, with `now` the reading taken for this
slot: `completed` frees the slot; `repeat` rearms from `now` with duration
`t.rep` when positive and frees otherwise; `reschedule` rearms from `now`
with the handler-supplied duration `r.next`. -/
def fireTimer (M : Nat) (now : Timepoint) (t : Timer) (r : HandlerResult) :
    Timer :=
  match r.status with
  | TimerStatus.completed => freeTimer
  | TimerStatus.rep =>
    if t.rep > 0 then ⟨t.handler, now % M, t.rep, t.rep⟩ else freeTimer
  | TimerStatus.reschedule => ⟨t.handler, now % M, r.next % M, t.rep⟩

/-- One iteration of the dispatch loop of `TimerSet::tick` on slot `t`
with clock reading `now`: skip a free slot; fire the handler iff
`elapsed = now - start` (wrapping) is at least `expires`. -/
def stepTimer (M : Nat) (now : Timepoint) (t : Timer) : Timer :=
  match t.handler with
  | none => t
  | some h =>
    if t.expires ≤ tsub M now t.start then fireTimer M now t (h ()) else t

/-- The dispatch loop of `TimerSet::tick`: process the slots in order,
taking one fresh clock reading (`clock k`) per armed slot; returns the
updated pool and the index of the next unused clock reading. -/
def tickPass (M : Nat) (clock : Nat → Timepoint) :
    List Timer → Nat → List Timer × Nat
  | [], k => ([], k)
  | t :: rest, k =>
    match t.handler with
    | none =>
      let p := tickPass M clock rest k
      (t :: p.1, p.2)
    | some _ =>
      let p := tickPass M clock rest (k + 1)
      (stepTimer M (clock k) t :: p.1, p.2)

/-- The second loop of `TimerSet::tick`: fold over the pool starting from
`numeric_limits<Timepoint>::max() = M - 1`, taking the minimum of
`remaining = expires - (now - start)` (wrapping) over armed slots. -/
def next_expiration_fold (M : Nat) (now : Timepoint) (ts : List Timer) : Nat :=
  ts.foldl
    (fun acc t =>
      match t.handler with
      | none => acc
      | some _ =>
        let remaining := tsub M t.expires (tsub M now t.start)
        if remaining < acc then remaining else acc)
    (M - 1)

/-- `TimerSet::tick()`: run the dispatch loop, take a fresh clock reading,
compute the minimal remaining time over armed slots, and map the untouched
sentinel `M - 1` to `0`. Returns the updated pool and the return value. -/
def tick (M : Nat) (clock : Nat → Timepoint) (ts : List Timer) :
    List Timer × Timepoint :=
  let p := tickPass M clock ts 0
  let now := clock p.2
  let ne := next_expiration_fold M now p.1
  (p.1, if ne = M - 1 then 0 else ne)

/-- Number of armed slots (slots holding a handler) in a pool; the slot at
index `i` is dispatched with clock reading `armedCount (ts.take i)`. -/
def armedCount (ts : List Timer) : Nat :=
  ts.countP (fun t => t.handler.isSome)

/-- Spec-side definition (for comparison with `tick`): the minimum of
`remaining = expires - (now - start)` over all armed slots, `none` when no
slot is armed. Follows the spec's words, not the source. -/
def specMinRemaining (M : Nat) (now : Timepoint) (ts : List Timer) :
    Option Nat :=
  (ts.filterMap
    (fun t =>
      if t.handler.isSome then some (tsub M t.expires (tsub M now t.start))
      else none)).min?

/-- Two handler results agree on everything the tick engine may consult:
equal status, and equal `next` payload when (and only required when) the
status is `reschedule`. -/
def resultCompat (r₁ r₂ : HandlerResult) : Prop :=
  r₁.status = r₂.status ∧
    (r₁.status = TimerStatus.reschedule → r₁.next = r₂.next)

/-- Lift `resultCompat` to optional handlers: both absent, or both present
with compatible results. -/
def handlerCompat : Option Handler → Option Handler → Prop
  | none, none => True
  | some h₁, some h₂ => resultCompat (h₁ ()) (h₂ ())
  | _, _ => False

/-- Two timers that differ at most in the `next` payload their handlers
return under a non-`reschedule` status. -/
def timerCompat (t₁ t₂ : Timer) : Prop :=
  handlerCompat t₁.handler t₂.handler ∧
    t₁.start = t₂.start ∧ t₁.expires = t₂.expires ∧ t₁.rep = t₂.rep

/-- The observable shape of a slot: whether it is armed, and its three
timing fields (everything except the handler function itself). -/
def shape (t : Timer) : Bool × Timepoint × Timepoint × Timepoint :=
  (t.handler.isSome, t.start, t.expires, t.rep)

/-- Concrete handler returning `completed` (with `next = 0`). -/
def hComplete : Handler := fun _ => ⟨TimerStatus.completed, 0⟩

/-- Concrete handler returning `completed` with a junk `next = 9` payload. -/
def hComplete9 : Handler := fun _ => ⟨TimerStatus.completed, 9⟩

/-- Concrete handler returning `repeat` status. -/
def hRepeat : Handler := fun _ => ⟨TimerStatus.rep, 0⟩

/-- Clock for the sentinel-collision scenario: dispatch reading 4, final
reading 6. -/
def clockA : Nat → Timepoint := fun k => if k = 0 then 4 else 6

/-- One armed slot, `start = 0`, `expires = 5`: not due at reading 4,
overdue by one at reading 6, so its remaining time underflows to `15`. -/
def poolA : List Timer := [⟨some hComplete, 0, 5, 0⟩]

/-- Clock for the second sentinel-collision scenario: dispatch reading 6,
final reading 8. -/
def clockB : Nat → Timepoint := fun k => if k = 0 then 6 else 8

/-- One armed slot, `start = 0`, `expires = 7`: not due at reading 6,
overdue by one at reading 8. -/
def poolB : List Timer := [⟨some hComplete, 0, 7, 0⟩]

theorem stepTimer_handler_none (M : Nat) (now : Timepoint) (t : Timer)
    (h : t.handler = none) : stepTimer M now t = t := by
  simp [stepTimer, h]

theorem armedCount_nil : armedCount [] = 0 := rfl

theorem armedCount_cons (t : Timer) (ts : List Timer) :
    armedCount (t :: ts) =
      armedCount ts + (if t.handler.isSome then 1 else 0) := by
  simp [armedCount, List.countP_cons]

theorem tickPass_fst_getElem? (M : Nat) (clock : Nat → Timepoint) :
    ∀ (ts : List Timer) (k i : Nat),
      (tickPass M clock ts k).1[i]? =
        (ts[i]?).map
          (fun t => stepTimer M (clock (k + armedCount (ts.take i))) t)
  | [], _, i => by simp [tickPass]
  | t :: rest, k, i => by
    cases hh : t.handler with
    | none =>
      cases i with
      | zero =>
        simp [tickPass, hh, stepTimer, armedCount]
      | succ i =>
        have ih := tickPass_fst_getElem? M clock rest k i
        have ha : armedCount ((t :: rest).take (i + 1)) =
            armedCount (rest.take i) := by
          simp [armedCount, List.countP_cons, hh]
        simp only [tickPass, hh, List.getElem?_cons_succ, ha, ih]
    | some f =>
      cases i with
      | zero =>
        simp [tickPass, hh, armedCount]
      | succ i =>
        have ih := tickPass_fst_getElem? M clock rest (k + 1) i
        have ha : armedCount ((t :: rest).take (i + 1)) =
            armedCount (rest.take i) + 1 := by
          simp [armedCount, List.countP_cons, hh]
        simp only [tickPass, hh, List.getElem?_cons_succ, ha, ih]
        have : k + 1 + armedCount (rest.take i) =
            k + (armedCount (rest.take i) + 1) := by omega
        rw [this]

theorem tickPass_snd_eq (M : Nat) (clock : Nat → Timepoint) :
    ∀ (ts : List Timer) (k : Nat),
      (tickPass M clock ts k).2 = k + armedCount ts
  | [], k => by simp [tickPass, armedCount]
  | t :: rest, k => by
    cases hh : t.handler with
    | none =>
      have ih := tickPass_snd_eq M clock rest k
      simp [tickPass, hh, ih, armedCount_cons]
    | some f =>
      have ih := tickPass_snd_eq M clock rest (k + 1)
      simp [tickPass, hh, ih, armedCount_cons]
      omega

/-- Claim C1: during a tick pass, an armed slot's handler is invoked (and
the slot replaced by the `fireTimer` outcome) exactly when the wrapping
elapsed time `now - start` is at least `expires`, where `now` is the fresh
clock reading taken for that slot; when the elapsed time is strictly less
than `expires` the slot is skipped unchanged. Wrapping of the raw counter
is handled by the modular subtraction `tsub`. -/
theorem tick_fires_iff_elapsed_ge (M : Nat) (clock : Nat → Timepoint)
    (ts : List Timer) (i : Nat) (t : Timer) (h : Handler)
    (ht : ts[i]? = some t) (hh : t.handler = some h) :
    (tick M clock ts).1[i]? =
      some (if t.expires ≤ tsub M (clock (armedCount (ts.take i))) t.start
            then fireTimer M (clock (armedCount (ts.take i))) t (h ())
            else t) := by
  have hfst : (tick M clock ts).1 = (tickPass M clock ts 0).1 := rfl
  rw [hfst, tickPass_fst_getElem? M clock ts 0 i, ht]
  simp [stepTimer, hh]

/-- Witness for C1 at a wrapping input: with `M = 16`, a slot scheduled at
`start = 14` with `expires = 5` fires at clock reading `3` (the counter
wrapped past zero: elapsed `= 3 - 14 mod 16 = 5 ≥ 5`) and the `completed`
handler frees it. -/
theorem tick_fires_iff_elapsed_ge_witness :
    (tick 16 (fun _ => 3) [⟨some hComplete, 14, 5, 0⟩]).1[0]? =
      some freeTimer :=
  Eq.trans
    (tick_fires_iff_elapsed_ge 16 (fun _ => 3) [⟨some hComplete, 14, 5, 0⟩]
      0 ⟨some hComplete, 14, 5, 0⟩ hComplete rfl rfl)
    rfl

theorem tsub_lt (M a b : Nat) (hM : 0 < M) : tsub M a b < M :=
  Nat.mod_lt _ hM

theorem foldl_min_eq : ∀ (l : List Nat) (a : Nat),
    l.foldl min a = match l.min? with | none => a | some m => min a m
  | [], _ => rfl
  | x :: l, a => by
    have ih1 := foldl_min_eq l (min a x)
    have ih2 := foldl_min_eq l x
    simp only [List.foldl_cons, List.min?_cons']
    rw [ih1, ih2]
    cases hm : l.min? with
    | none => rfl
    | some m => simp [min_assoc]

theorem next_fold_eq (M now : Nat) : ∀ (ts : List Timer) (a : Nat),
    ts.foldl
      (fun acc t =>
        match t.handler with
        | none => acc
        | some _ =>
          let remaining := tsub M t.expires (tsub M now t.start)
          if remaining < acc then remaining else acc)
      a =
    (ts.filterMap
      (fun t =>
        if t.handler.isSome then some (tsub M t.expires (tsub M now t.start))
        else none)).foldl min a
  | [], _ => rfl
  | t :: ts, a => by
    cases hh : t.handler with
    | none =>
      simp only [List.foldl_cons, List.filterMap_cons, hh]
      simpa using next_fold_eq M now ts a
    | some f =>
      simp only [List.foldl_cons, List.filterMap_cons, hh]
      have harith :
          (if tsub M t.expires (tsub M now t.start) < a
           then tsub M t.expires (tsub M now t.start) else a) =
          min a (tsub M t.expires (tsub M now t.start)) := by
        rcases Nat.lt_or_ge (tsub M t.expires (tsub M now t.start)) a with
          hlt | hge
        · rw [if_pos hlt, min_eq_right (Nat.le_of_lt hlt)]
        · rw [if_neg (Nat.not_lt.mpr hge), min_eq_left hge]
      simpa [harith] using next_fold_eq M now ts
        (min a (tsub M t.expires (tsub M now t.start)))

theorem next_expiration_fold_eq (M now : Nat) (ts : List Timer) :
    next_expiration_fold M now ts =
      match specMinRemaining M now ts with
      | none => M - 1
      | some m => min (M - 1) m := by
  have h1 := next_fold_eq M now ts (M - 1)
  have h2 := foldl_min_eq
    (ts.filterMap
      (fun t =>
        if t.handler.isSome then some (tsub M t.expires (tsub M now t.start))
        else none)) (M - 1)
  exact h1.trans h2

theorem specMinRemaining_le (M now : Nat) (ts : List Timer) (m : Nat)
    (hM : 0 < M) (hm : specMinRemaining M now ts = some m) : m ≤ M - 1 := by
  have hor : ∀ a b : Nat, min a b = a ∨ min a b = b := by
    intro a b
    omega
  have hmem := List.min?_mem hor hm
  rcases List.mem_filterMap.mp hmem with ⟨t, _, hf⟩
  by_cases hs : t.handler.isSome = true
  · rw [if_pos hs] at hf
    have : tsub M t.expires (tsub M now t.start) = m := Option.some.inj hf
    have hlt := tsub_lt M t.expires (tsub M now t.start) hM
    omega
  · rw [if_neg hs] at hf
    exact absurd hf (Option.noConfusion)

/-- Claim C2, amended: `tick()` returns the minimum over all still-armed
slots of `remaining = expires - (now' - start)` (wrapping, with `now'` the
fresh reading taken after the dispatch pass) — EXCEPT when that minimum
equals the maximum representable Timepoint `M - 1`: the code uses `M - 1`
as its sentinel and maps it to `0`, so a minimum of `M - 1` is also
returned as `0`. With no armed slot, the return value is `0`. -/
theorem tick_ret_eq_min_remaining (M : Nat) (clock : Nat → Timepoint)
    (ts : List Timer) (hM : 0 < M) :
    (tick M clock ts).2 =
      match specMinRemaining M (clock (tickPass M clock ts 0).2)
              (tickPass M clock ts 0).1 with
      | none => 0
      | some r => if r = M - 1 then 0 else r := by
  have he := next_expiration_fold_eq M (clock (tickPass M clock ts 0).2)
    (tickPass M clock ts 0).1
  have hret : (tick M clock ts).2 =
      if next_expiration_fold M (clock (tickPass M clock ts 0).2)
           (tickPass M clock ts 0).1 = M - 1
      then 0
      else next_expiration_fold M (clock (tickPass M clock ts 0).2)
             (tickPass M clock ts 0).1 := rfl
  rw [hret, he]
  cases hm : specMinRemaining M (clock (tickPass M clock ts 0).2)
      (tickPass M clock ts 0).1 with
  | none => simp
  | some m =>
    have hle := specMinRemaining_le M (clock (tickPass M clock ts 0).2)
      (tickPass M clock ts 0).1 m hM hm
    have hmin : min (M - 1) m = m := min_eq_right hle
    simp [hmin]

/-- Witness for C2 (amended): with `M = 16`, one slot with `expires = 10`
and constant clock `4`, the dispatch pass skips it and `tick` returns the
remaining time `10 - 4 = 6`, agreeing with the spec-side minimum. -/
theorem tick_ret_eq_min_remaining_witness :
    (tick 16 (fun _ => 4) [⟨some hComplete, 0, 10, 0⟩]).2 = 6 :=
  Eq.trans
    (tick_ret_eq_min_remaining 16 (fun _ => 4) [⟨some hComplete, 0, 10, 0⟩]
      (by decide))
    rfl

/-- Claim C2 counterexample: with `M = 16` and one armed slot (`start = 0`,
`expires = 5`) that is skipped at dispatch reading `4` but overdue by one
at the final reading `6`, the true minimum remaining value is
`15 = M - 1`, yet `tick` returns `0` because `M - 1` collides with its
sentinel; so `tick` does not always return the minimum remaining value. -/
theorem tick_ret_min_counterexample :
    (tick 16 clockA poolA).2 = 0 ∧
      specMinRemaining 16 (clockA (tickPass 16 clockA poolA 0).2)
        (tickPass 16 clockA poolA 0).1 = some 15 :=
  ⟨rfl, rfl⟩

/-- Claim C10: a `tick()` return value of `0` does not imply an empty
pool: with `M = 16` and one armed slot (`start = 0`, `expires = 7`)
skipped at dispatch reading `6` but overdue by exactly one unit at the
final reading `8`, the slot's remaining time underflows to `15 = M - 1`,
which `tick` maps to `0` — the same value returned for a pool with no
armed slot — while the slot remains armed. -/
theorem tick_zero_with_armed_slot :
    (tick 16 clockB poolB).2 = 0 ∧
      ((tick 16 clockB poolB).1.any fun t => t.handler.isSome) = true :=
  ⟨rfl, rfl⟩

/-- Claim C3: for an armed slot that is due at its dispatch reading and
whose handler returns `repeat` status: when the stored `repeat` field is
positive the slot is rearmed with `start = now` (the reading taken at the
firing instant) and `expires = repeat`; when it is `0` the slot is freed,
so a degenerate `repeat` behaves as a one-shot. (Behavior of the cpp17
implementation; the spec fixes this as the contract.) -/
theorem tick_repeat_rearm_or_free (M : Nat) (clock : Nat → Timepoint)
    (ts : List Timer) (i : Nat) (t : Timer) (h : Handler)
    (ht : ts[i]? = some t) (hh : t.handler = some h)
    (hdue : t.expires ≤ tsub M (clock (armedCount (ts.take i))) t.start)
    (hst : (h ()).status = TimerStatus.rep) :
    (tick M clock ts).1[i]? =
      some (if 0 < t.rep
            then ⟨t.handler, clock (armedCount (ts.take i)) % M, t.rep, t.rep⟩
            else freeTimer) := by
  have hfst : (tick M clock ts).1 = (tickPass M clock ts 0).1 := rfl
  rw [hfst, tickPass_fst_getElem? M clock ts 0 i, ht]
  simp [stepTimer, hh, hdue, fireTimer, hst]

/-- Witness for C3: at `M = 16`, a slot with `start = 0`, `expires = 5`,
`repeat = 5` is due at clock reading `7`; its `repeat`-status handler
rearms it with `start = 7`, `expires = 5`. -/
theorem tick_repeat_rearm_or_free_witness :
    (tick 16 (fun _ => 7) [⟨some hRepeat, 0, 5, 5⟩]).1[0]? =
      some ⟨some hRepeat, 7, 5, 5⟩ :=
  Eq.trans
    (tick_repeat_rearm_or_free 16 (fun _ => 7) [⟨some hRepeat, 0, 5, 5⟩] 0
      ⟨some hRepeat, 0, 5, 5⟩ hRepeat rfl rfl (by decide) rfl)
    rfl

/-- Claim C4 (code bug): `now_and_every` passes the clock reading itself
as the stored duration (`add_timer(now, now, h, interval)`), so at clock
reading `5` the new slot gets `expires = 5`, not `0`; at the next tick
(clock reading `6`, wrapping elapsed `1 < 5`) the slot does not fire and
is left unchanged, contradicting the spec and the source's own comment
that the handler is called immediately. -/
theorem now_and_every_first_fire_not_immediate :
    (now_and_every 16 [freeTimer] 5 3 hRepeat).1 =
      [⟨some hRepeat, 5, 5, 3⟩] ∧
    (tick 16 (fun _ => 6) [⟨some hRepeat, 5, 5, 3⟩]).1 =
      [⟨some hRepeat, 5, 5, 3⟩] :=
  ⟨rfl, rfl⟩

/-- Claim C5: when every slot of the pool is armed, each scheduling
operation (`in`, `at`, `every`, `now_and_every`) returns the empty handle
and leaves every existing slot unchanged. -/
theorem full_pool_alloc_fails (M : Nat) (ts : List Timer)
    (now d w iv : Timepoint) (h : Handler)
    (hfull : ∀ t ∈ ts, t.handler.isSome = true) :
    in_ M ts now d h = (ts, none) ∧
    at_ M ts now w h = (ts, none) ∧
    every M ts now iv h = (ts, none) ∧
    now_and_every M ts now iv h = (ts, none) := by
  have hn : next_timer_slot ts = none := by
    rw [next_timer_slot, List.findIdx?_eq_none_iff]
    intro x hx
    have hs := hfull x hx
    cases hxh : x.handler with
    | none => rw [hxh] at hs; exact absurd hs (by decide)
    | some f => rfl
  refine ⟨?_, ?_, ?_, ?_⟩ <;>
    simp [in_, at_, every, now_and_every, add_timer, hn]

/-- Witness for C5: a capacity-1 pool whose single slot is armed; all four
scheduling calls return the empty handle and the untouched pool. -/
theorem full_pool_alloc_fails_witness :
    in_ 16 [(⟨some hComplete, 0, 1, 0⟩ : Timer)] 2 3 hRepeat =
      ([⟨some hComplete, 0, 1, 0⟩], none) ∧
    at_ 16 [(⟨some hComplete, 0, 1, 0⟩ : Timer)] 2 3 hRepeat =
      ([⟨some hComplete, 0, 1, 0⟩], none) ∧
    every 16 [(⟨some hComplete, 0, 1, 0⟩ : Timer)] 2 3 hRepeat =
      ([⟨some hComplete, 0, 1, 0⟩], none) ∧
    now_and_every 16 [(⟨some hComplete, 0, 1, 0⟩ : Timer)] 2 3 hRepeat =
      ([⟨some hComplete, 0, 1, 0⟩], none) :=
  full_pool_alloc_fails 16 [⟨some hComplete, 0, 1, 0⟩] 2 3 3 3 hRepeat
    (by
      intro t ht
      rw [List.mem_singleton] at ht
      subst ht
      rfl)

/-- Claim C6: `cancel` degrades safely and is idempotent: an empty handle
or a handle to an already-freed slot is a no-op on the pool; a handle to
an armed slot frees exactly that slot (handler cleared, timing fields
zeroed, all other slots untouched), a second `cancel` through the same
handle is then a no-op, and the freed slot is never fired by a later tick
pass. -/
theorem cancel_idempotent_safe (M : Nat) (clock : Nat → Timepoint)
    (ts : List Timer) (i k : Nat) (t : Timer) (ht : ts[i]? = some t) :
    cancel ts none = (ts, none) ∧
    (t.handler = none → cancel ts (some i) = (ts, some i)) ∧
    (t.handler.isSome = true →
      cancel ts (some i) = (ts.set i freeTimer, some i) ∧
      cancel (ts.set i freeTimer) (some i) = (ts.set i freeTimer, some i) ∧
      (tickPass M clock (ts.set i freeTimer) k).1[i]? = some freeTimer) := by
  have hi : i < ts.length := by
    rcases List.getElem?_eq_some_iff.mp ht with ⟨hlen, _⟩
    exact hlen
  have hset : (ts.set i freeTimer)[i]? = some freeTimer :=
    List.getElem?_set_self hi
  refine ⟨rfl, ?_, ?_⟩
  · intro hnone
    simp [cancel, ht, hnone]
  · intro hsome
    rcases Option.isSome_iff_exists.mp hsome with ⟨f, hf⟩
    refine ⟨?_, ?_, ?_⟩
    · simp [cancel, ht, hf, remove]
    · simp only [cancel, hset]
      rfl
    · rw [tickPass_fst_getElem? M clock (ts.set i freeTimer) k i, hset]
      rfl

/-- Witness for C6 on a concrete armed slot. -/
theorem cancel_idempotent_safe_witness :
    cancel [(⟨some hComplete, 2, 3, 0⟩ : Timer)] none =
      ([⟨some hComplete, 2, 3, 0⟩], none) ∧
    ((⟨some hComplete, 2, 3, 0⟩ : Timer).handler = none →
      cancel [(⟨some hComplete, 2, 3, 0⟩ : Timer)] (some 0) =
        ([⟨some hComplete, 2, 3, 0⟩], some 0)) ∧
    ((⟨some hComplete, 2, 3, 0⟩ : Timer).handler.isSome = true →
      cancel [(⟨some hComplete, 2, 3, 0⟩ : Timer)] (some 0) =
        ([(⟨some hComplete, 2, 3, 0⟩ : Timer)].set 0 freeTimer, some 0) ∧
      cancel ([(⟨some hComplete, 2, 3, 0⟩ : Timer)].set 0 freeTimer)
          (some 0) =
        ([(⟨some hComplete, 2, 3, 0⟩ : Timer)].set 0 freeTimer, some 0) ∧
      (tickPass 16 (fun _ => 0)
          ([(⟨some hComplete, 2, 3, 0⟩ : Timer)].set 0 freeTimer) 0).1[0]? =
        some freeTimer) :=
  cancel_idempotent_safe 16 (fun _ => 0) [⟨some hComplete, 2, 3, 0⟩] 0 0
    ⟨some hComplete, 2, 3, 0⟩ rfl

/-- Claim C7: `at(when, h)` stores the duration `when - now()` computed
with wrapping (unsigned) subtraction; when `when` is already behind `now`
the subtraction underflows to the very large duration `M - (now - when)`,
so the new slot is deferred far into the future — in particular it is not
due at the scheduling instant — rather than fired immediately. -/
theorem at_behind_now_defers (M : Nat) (ts : List Timer)
    (now when : Nat) (h : Handler) (i : Nat)
    (hnow : now < M) (hbehind : when < now)
    (hslot : next_timer_slot ts = some i) :
    tsub M when now = M - (now - when) ∧
    (at_ M ts now when h).1[i]? =
      some ⟨some h, now, M - (now - when), 0⟩ ∧
    stepTimer M now ⟨some h, now, M - (now - when), 0⟩ =
      ⟨some h, now, M - (now - when), 0⟩ := by
  have hw : when % M = when := Nat.mod_eq_of_lt (Nat.lt_trans hbehind hnow)
  have hn : now % M = now := Nat.mod_eq_of_lt hnow
  have h1 : tsub M when now = M - (now - when) := by
    unfold tsub
    rw [hw, hn, Nat.mod_eq_of_lt (show when + (M - now) < M by omega)]
    omega
  rcases List.findIdx?_eq_some_iff_getElem.mp hslot with ⟨hlen, -, -⟩
  have hadd : at_ M ts now when h =
      (ts.set i ⟨some h, now % M, tsub M when now % M, 0 % M⟩, some i) := by
    show add_timer M ts now (tsub M when now) h 0 = _
    unfold add_timer
    rw [hslot]
  have hXeq : (⟨some h, now % M, tsub M when now % M, 0 % M⟩ : Timer) =
      ⟨some h, now, M - (now - when), 0⟩ := by
    rw [hn, h1, Nat.mod_eq_of_lt (show M - (now - when) < M by omega),
      Nat.zero_mod]
  rw [hXeq] at hadd
  have h0 : tsub M now now = 0 := by
    unfold tsub
    rw [hn]
    have hEq : now + (M - now) = M := by omega
    rw [hEq, Nat.mod_self]
  refine ⟨h1, ?_, ?_⟩
  · rw [hadd]
    exact List.getElem?_set_self hlen
  · show (if M - (now - when) ≤ tsub M now now then
            fireTimer M now ⟨some h, now, M - (now - when), 0⟩ (h ())
          else ⟨some h, now, M - (now - when), 0⟩) =
        ⟨some h, now, M - (now - when), 0⟩
    rw [h0, if_neg (by omega)]

/-- Witness for C7: `M = 16`, `now = 10`, `when = 4` (already 6 behind):
the stored duration underflows to `16 - 6 = 10` and the slot is not due at
the scheduling instant. -/
theorem at_behind_now_defers_witness :
    tsub 16 4 10 = 16 - (10 - 4) ∧
    (at_ 16 [freeTimer] 10 4 hComplete).1[0]? =
      some ⟨some hComplete, 10, 16 - (10 - 4), 0⟩ ∧
    stepTimer 16 10 ⟨some hComplete, 10, 16 - (10 - 4), 0⟩ =
      ⟨some hComplete, 10, 16 - (10 - 4), 0⟩ :=
  at_behind_now_defers 16 [freeTimer] 10 4 hComplete 0 (by decide) (by decide)
    rfl

/-- Claim C8: `reschedule_in` and `reschedule_at` update only the `start`
and `expires` fields of a live slot — its `handler` and `repeat` fields
are carried over unchanged and only slot `i` of the pool is overwritten —
while an empty handle or a handle to a freed slot is a no-op that
modifies no slot at all. -/
theorem reschedule_frame (M : Nat) (ts : List Timer) (i : Nat) (t : Timer)
    (now d w : Timepoint) (ht : ts[i]? = some t) :
    reschedule_in M ts none now d = (ts, none) ∧
    reschedule_at M ts none now w = (ts, none) ∧
    (t.handler = none →
      reschedule_in M ts (some i) now d = (ts, some i) ∧
      reschedule_at M ts (some i) now w = (ts, some i)) ∧
    (t.handler.isSome = true →
      reschedule_in M ts (some i) now d =
        (ts.set i ⟨t.handler, now % M, d % M, t.rep⟩, some i) ∧
      reschedule_at M ts (some i) now w =
        (ts.set i ⟨t.handler, now % M, tsub M w now % M, t.rep⟩, some i)) := by
  refine ⟨rfl, rfl, ?_, ?_⟩
  · intro hnone
    constructor <;>
      simp [reschedule_in, reschedule_at, reschedule_timer, ht, hnone]
  · intro hsome
    have hne : t.handler.isNone = false := by
      rcases Option.isSome_iff_exists.mp hsome with ⟨f, hf⟩
      rw [hf]
      rfl
    constructor <;>
      simp [reschedule_in, reschedule_at, reschedule_timer, ht, hne]

/-- Witness for C8 on a live slot: `handler` and `repeat = 9` survive both
reschedule operations; only `start`/`expires` change. -/
theorem reschedule_frame_witness :
    reschedule_in 16 [(⟨some hComplete, 1, 2, 9⟩ : Timer)] none 3 4 =
      ([⟨some hComplete, 1, 2, 9⟩], none) ∧
    reschedule_at 16 [(⟨some hComplete, 1, 2, 9⟩ : Timer)] none 3 0 =
      ([⟨some hComplete, 1, 2, 9⟩], none) ∧
    ((⟨some hComplete, 1, 2, 9⟩ : Timer).handler = none →
      reschedule_in 16 [(⟨some hComplete, 1, 2, 9⟩ : Timer)] (some 0) 3 4 =
        ([⟨some hComplete, 1, 2, 9⟩], some 0) ∧
      reschedule_at 16 [(⟨some hComplete, 1, 2, 9⟩ : Timer)] (some 0) 3 0 =
        ([⟨some hComplete, 1, 2, 9⟩], some 0)) ∧
    ((⟨some hComplete, 1, 2, 9⟩ : Timer).handler.isSome = true →
      reschedule_in 16 [(⟨some hComplete, 1, 2, 9⟩ : Timer)] (some 0) 3 4 =
        ([(⟨some hComplete, 1, 2, 9⟩ : Timer)].set 0
          ⟨(⟨some hComplete, 1, 2, 9⟩ : Timer).handler, 3 % 16, 4 % 16,
            (⟨some hComplete, 1, 2, 9⟩ : Timer).rep⟩, some 0) ∧
      reschedule_at 16 [(⟨some hComplete, 1, 2, 9⟩ : Timer)] (some 0) 3 0 =
        ([(⟨some hComplete, 1, 2, 9⟩ : Timer)].set 0
          ⟨(⟨some hComplete, 1, 2, 9⟩ : Timer).handler, 3 % 16,
            tsub 16 0 3 % 16,
            (⟨some hComplete, 1, 2, 9⟩ : Timer).rep⟩, some 0)) :=
  reschedule_frame 16 [⟨some hComplete, 1, 2, 9⟩] 0 ⟨some hComplete, 1, 2, 9⟩
    3 4 0 rfl

theorem handlerCompat_isSome {o₁ o₂ : Option Handler}
    (h : handlerCompat o₁ o₂) : o₁.isSome = o₂.isSome := by
  cases o₁ <;> cases o₂ <;> simp_all [handlerCompat]

theorem handlerCompat_none {o₁ o₂ : Option Handler}
    (h : handlerCompat o₁ o₂) (h₁ : o₁ = none) : o₂ = none := by
  cases o₂ with
  | none => rfl
  | some f => rw [h₁] at h; exact h.elim

theorem handlerCompat_some {o₁ o₂ : Option Handler} {f₁ : Handler}
    (h : handlerCompat o₁ o₂) (h₁ : o₁ = some f₁) :
    ∃ f₂, o₂ = some f₂ ∧ resultCompat (f₁ ()) (f₂ ()) := by
  cases o₂ with
  | none => rw [h₁] at h; exact h.elim
  | some f₂ =>
    rw [h₁] at h
    exact ⟨f₂, rfl, h⟩

theorem timerCompat_shape {t₁ t₂ : Timer} (h : timerCompat t₁ t₂) :
    shape t₁ = shape t₂ := by
  rcases h with ⟨hh, hs, he, hr⟩
  simp [shape, handlerCompat_isSome hh, hs, he, hr]

theorem timerCompat_freeTimer : timerCompat freeTimer freeTimer :=
  ⟨trivial, rfl, rfl, rfl⟩

theorem fireTimer_compat (M now : Nat) {t₁ t₂ : Timer}
    {r₁ r₂ : HandlerResult} (ht : timerCompat t₁ t₂)
    (hr : resultCompat r₁ r₂) :
    timerCompat (fireTimer M now t₁ r₁) (fireTimer M now t₂ r₂) := by
  rcases ht with ⟨hh, hs, he, hrep⟩
  rcases hr with ⟨hst, hnx⟩
  cases hs1 : r₁.status with
  | completed =>
    have hs2 : r₂.status = TimerStatus.completed := hst.symm.trans hs1
    simp only [fireTimer, hs1, hs2]
    exact timerCompat_freeTimer
  | rep =>
    have hs2 : r₂.status = TimerStatus.rep := hst.symm.trans hs1
    simp only [fireTimer, hs1, hs2, ← hrep]
    by_cases hz : 0 < t₁.rep
    · rw [if_pos hz, if_pos hz]
      exact ⟨hh, rfl, rfl, rfl⟩
    · rw [if_neg hz, if_neg hz]
      exact timerCompat_freeTimer
  | reschedule =>
    have hs2 : r₂.status = TimerStatus.reschedule := hst.symm.trans hs1
    have hnext : r₁.next = r₂.next := hnx hs1
    simp only [fireTimer, hs1, hs2]
    exact ⟨hh, rfl, by rw [hnext], hrep⟩

theorem stepTimer_compat (M now : Nat) {t₁ t₂ : Timer}
    (h : timerCompat t₁ t₂) :
    timerCompat (stepTimer M now t₁) (stepTimer M now t₂) := by
  have hcopy := h
  rcases hcopy with ⟨hh, hs, he, hrep⟩
  cases h₁ : t₁.handler with
  | none =>
    have h₂ : t₂.handler = none := handlerCompat_none hh h₁
    rw [stepTimer_handler_none M now t₁ h₁, stepTimer_handler_none M now t₂ h₂]
    exact h
  | some f₁ =>
    rcases handlerCompat_some hh h₁ with ⟨f₂, h₂, hrc⟩
    simp only [stepTimer, h₁, h₂, ← hs, ← he]
    by_cases hdue : t₁.expires ≤ tsub M now t₁.start
    · rw [if_pos hdue, if_pos hdue]
      exact fireTimer_compat M now h hrc
    · rw [if_neg hdue, if_neg hdue]
      exact h

theorem tickPass_compat (M : Nat) (clock : Nat → Timepoint) :
    ∀ {ts₁ ts₂ : List Timer}, List.Forall₂ timerCompat ts₁ ts₂ →
      ∀ k : Nat,
        List.Forall₂ timerCompat (tickPass M clock ts₁ k).1
          (tickPass M clock ts₂ k).1 ∧
        (tickPass M clock ts₁ k).2 = (tickPass M clock ts₂ k).2 := by
  intro ts₁ ts₂ hc
  induction hc with
  | nil => exact fun _ => ⟨List.Forall₂.nil, rfl⟩
  | @cons t₁ t₂ l₁ l₂ hhd htl ih =>
    intro k
    cases h₁ : t₁.handler with
    | none =>
      have h₂ : t₂.handler = none := handlerCompat_none hhd.1 h₁
      simp only [tickPass, h₁, h₂]
      exact ⟨List.Forall₂.cons hhd (ih k).1, (ih k).2⟩
    | some f₁ =>
      rcases handlerCompat_some hhd.1 h₁ with ⟨f₂, h₂, -⟩
      simp only [tickPass, h₁, h₂]
      exact ⟨List.Forall₂.cons (stepTimer_compat M (clock k) hhd)
        (ih (k + 1)).1, (ih (k + 1)).2⟩

theorem foldl_step_congr (M now : Nat) :
    ∀ {ts₁ ts₂ : List Timer}, List.Forall₂ timerCompat ts₁ ts₂ →
      ∀ a : Nat,
      ts₁.foldl
        (fun acc t =>
          match t.handler with
          | none => acc
          | some _ =>
            let remaining := tsub M t.expires (tsub M now t.start)
            if remaining < acc then remaining else acc) a =
      ts₂.foldl
        (fun acc t =>
          match t.handler with
          | none => acc
          | some _ =>
            let remaining := tsub M t.expires (tsub M now t.start)
            if remaining < acc then remaining else acc) a := by
  intro ts₁ ts₂ hc
  induction hc with
  | nil => exact fun _ => rfl
  | @cons t₁ t₂ l₁ l₂ hhd htl ih =>
    intro a
    rcases hhd with ⟨hh, hs, he, hrep⟩
    simp only [List.foldl_cons]
    cases h₁ : t₁.handler with
    | none =>
      have h₂ : t₂.handler = none := handlerCompat_none hh h₁
      simp only [h₁, h₂]
      exact ih a
    | some f₁ =>
      rcases handlerCompat_some hh h₁ with ⟨f₂, h₂, -⟩
      simp only [h₁, h₂, hs, he]
      exact ih _

theorem next_expiration_fold_congr (M now : Nat) {ts₁ ts₂ : List Timer}
    (hc : List.Forall₂ timerCompat ts₁ ts₂) :
    next_expiration_fold M now ts₁ = next_expiration_fold M now ts₂ :=
  foldl_step_congr M now hc (M - 1)

theorem map_shape_congr {ts₁ ts₂ : List Timer}
    (hc : List.Forall₂ timerCompat ts₁ ts₂) :
    ts₁.map shape = ts₂.map shape := by
  induction hc with
  | nil => rfl
  | @cons t₁ t₂ l₁ l₂ hhd htl ih =>
    simp only [List.map_cons, timerCompat_shape hhd, ih]

/-- Claim C9: the outcome of `tick` (the observable shape of every slot —
armedness and all timing fields — and the return value) does not depend on
the `next` payload of any handler result whose status is not `reschedule`:
two pools whose slots agree on all timing fields and whose handlers return
results with equal status, with equal `next` required only under
`reschedule` status, produce identical shapes and identical return
values. The `next` payload is consulted only under `reschedule`, where it
overrides the stored `repeat` entirely. -/
theorem tick_ignores_next_unless_reschedule (M : Nat)
    (clock : Nat → Timepoint) (ts₁ ts₂ : List Timer)
    (hc : List.Forall₂ timerCompat ts₁ ts₂) :
    (tick M clock ts₁).1.map shape = (tick M clock ts₂).1.map shape ∧
    (tick M clock ts₁).2 = (tick M clock ts₂).2 := by
  have hp := tickPass_compat M clock hc 0
  refine ⟨map_shape_congr hp.1, ?_⟩
  have e₁ : (tick M clock ts₁).2 =
      if next_expiration_fold M (clock (tickPass M clock ts₁ 0).2)
           (tickPass M clock ts₁ 0).1 = M - 1
      then 0
      else next_expiration_fold M (clock (tickPass M clock ts₁ 0).2)
             (tickPass M clock ts₁ 0).1 := rfl
  have e₂ : (tick M clock ts₂).2 =
      if next_expiration_fold M (clock (tickPass M clock ts₂ 0).2)
           (tickPass M clock ts₂ 0).1 = M - 1
      then 0
      else next_expiration_fold M (clock (tickPass M clock ts₂ 0).2)
             (tickPass M clock ts₂ 0).1 := rfl
  rw [e₁, e₂, hp.2, next_expiration_fold_congr M
    (clock (tickPass M clock ts₂ 0).2) hp.1]

/-- Witness for C9: two single-slot pools whose `completed`-status handlers
differ only in the junk `next` payload (`0` vs `9`); `tick` (clock `0`,
the slot due immediately) produces identical shapes and return values. -/
theorem tick_ignores_next_unless_reschedule_witness :
    (tick 16 (fun _ => 0) [(⟨some hComplete, 0, 0, 0⟩ : Timer)]).1.map
        shape =
      (tick 16 (fun _ => 0) [(⟨some hComplete9, 0, 0, 0⟩ : Timer)]).1.map
        shape ∧
    (tick 16 (fun _ => 0) [(⟨some hComplete, 0, 0, 0⟩ : Timer)]).2 =
      (tick 16 (fun _ => 0) [(⟨some hComplete9, 0, 0, 0⟩ : Timer)]).2 :=
  tick_ignores_next_unless_reschedule 16 (fun _ => 0)
    [⟨some hComplete, 0, 0, 0⟩] [⟨some hComplete9, 0, 0, 0⟩]
    (List.Forall₂.cons
      ⟨⟨rfl, fun hx => absurd hx (by decide)⟩, rfl, rfl, rfl⟩
      List.Forall₂.nil)

end ArduinoTimer
